import Mathlib

/-!
Verification of the configuration-schema layer of the TTS repository
(`TTS/tts/configs/shared_configs.py`).

The file has two parts.

Part 1 embeds, directly from the source file, the three dataclasses
`GSTConfig`, `CharactersConfig` and `BaseTTSConfig` and their
`check_values` routines, which are explicit sequences of
`check_argument` calls.  The `check_argument` helper itself (and the
generic instantiate / validate / merge engine) live in the `coqpit`
dependency, which is not part of the repository sources; those are
modelled from the specification and carry a `Modelled from the spec:`
doc comment.

Part 2 is a generic schema engine (FieldSpec / instantiate / validate /
merge), modelled from the specification, over which the schema-level
properties are stated and proved.  All recursive functions of the
engine take an explicit fuel argument and recurse structurally on it,
consuming one unit per tree node descended into; this keeps every
definition computable by the kernel.  Theorems either hold at every
fuel or carry a fuel hypothesis (such as `enoughS` or a well-formedness
predicate) that guarantees the fuel covers the tree, so the fuel is an
artifact of the embedding and not of the modelled engine.
-/

/-- Runtime values of configuration fields: Python `None`, strings,
booleans, integers, the float `inf` (used as a default for
`max_seq_len`), dictionaries, nested records and sequences of values. -/
inductive Value where
  | vNone
  | vStr (s : String)
  | vBool (b : Bool)
  | vInt (n : Int)
  | vInf
  | vDict (d : List (String × Value))
  | vRec (fs : List (String × Value))
  | vSeq (xs : List Value)

/-- Kinds of validation findings, as in the specification's Violation
taxonomy. -/
inductive ViolationKind where
  | MissingRequired
  | OutOfRange
  | WrongType
  deriving DecidableEq, Repr

/-- One validation finding: the path from the root record to the
offending field, the kind of finding, and a human-readable detail
message (whose exact wording is abstracted to fixed strings here). -/
structure Violation where
  field_path : List String
  kind : ViolationKind
  detail : String
  deriving DecidableEq, Repr

def mkMissing (p : List String) : Violation :=
  ⟨p, .MissingRequired, "required value is not set"⟩

def mkOutOfRange (p : List String) : Violation :=
  ⟨p, .OutOfRange, "value out of the declared range"⟩

def mkWrongType (p : List String) : Violation :=
  ⟨p, .WrongType, "value has the wrong type"⟩

/-- Prefix a violation's field path with an enclosing record field name. -/
def Violation.push (n : String) (w : Violation) : Violation :=
  ⟨n :: w.field_path, w.kind, w.detail⟩

/-- Prefix a violation's field path with a sequence field name and an
element index. -/
def Violation.pushIdx (n : String) (i : Nat) (w : Violation) : Violation :=
  ⟨n :: toString i :: w.field_path, w.kind, w.detail⟩

/-- Look a key up in an association list of field values; an absent key
reads as the absent value `vNone`. -/
def lookupV (k : String) (c : List (String × Value)) : Value :=
  match c with
  | [] => .vNone
  | (k₁, v₁) :: rest => if k₁ == k then v₁ else lookupV k rest

/-- Set a key in an association list of field values, replacing the
first occurrence and appending if the key is absent. -/
def setV (c : List (String × Value)) (k : String) (w : Value) :
    List (String × Value) :=
  match c with
  | [] => [(k, w)]
  | (k₁, v₁) :: rest =>
    if k₁ == k then (k, w) :: rest else (k₁, v₁) :: setV rest k w

def keysOf (c : List (String × Value)) : List String := c.map Prod.fst

/-- A value counts as numeric when it is an integer or the float `inf`;
range constraints apply to numeric values only. -/
def isNumericV : Value → Bool
  | .vInt _ => true
  | .vInf => true
  | _ => false

/-- The value lies strictly below a lower bound (`inf` never does). -/
def belowMin (v : Value) (mn : Int) : Bool :=
  match v with
  | .vInt n => n < mn
  | _ => false

/-- The value lies strictly above an upper bound (`inf` always does). -/
def aboveMax (v : Value) (mx : Int) : Bool :=
  match v with
  | .vInt n => mx < n
  | .vInf => true
  | _ => false

/-- A non-none value that counts as the empty value of its type. -/
def isEmptyVal : Value → Bool
  | .vStr s => s.isEmpty
  | .vDict d => d.isEmpty
  | .vSeq xs => xs.isEmpty
  | _ => false

/-- Range check for a restricted numeric field: at most one `OutOfRange`
violation, produced when the value falls outside a declared bound. -/
def rangeCheck (path : List String) (v : Value) (mn mx : Option Int) :
    List Violation :=
  match mn with
  | some m =>
    if belowMin v m then [mkOutOfRange path]
    else
      match mx with
      | some M => if aboveMax v M then [mkOutOfRange path] else []
      | none => []
  | none =>
    match mx with
    | some M => if aboveMax v M then [mkOutOfRange path] else []
    | none => []

/-- Modelled from the spec: the per-field check of the validation
engine (the engine itself, `coqpit`'s `check_argument`, is not among
the repository sources).  An absent (`vNone`) value is flagged
`MissingRequired` only when the field's default was the MISSING
sentinel (per the spec, fields whose default is an explicit `none` are
legitimately optional and instantiating with pure defaults never
introduces violations for them); a present value on a restricted field
must lie within the declared numeric bounds when numeric, and must not
be the type's empty value otherwise, the latter being reported as
`MissingRequired` since the semantic is "must be explicitly provided". -/
def checkPrim (path : List String) (missingDefault : Bool)
    (restricted : Bool) (mn mx : Option Int) (v : Value) : List Violation :=
  match v with
  | .vNone => if missingDefault then [mkMissing path] else []
  | v' =>
    if restricted then
      if isNumericV v' then rangeCheck path v' mn mx
      else if isEmptyVal v' then [mkMissing path] else []
    else []

/-- Modelled from the spec: `coqpit.check_argument`, the single-field
check invoked by the `check_values` routines in the source.  It reads
the field from the record's dictionary form and applies the restricted
/ range rules; it returns its findings as a list of Violations rather
than raising (validation accumulates every violation found).  The
fields checked through it in this repository all have non-MISSING
defaults, so the MISSING flag is off. -/
def check_argument (name : String) (c : List (String × Value))
    (restricted : Bool) (mn mx : Option Int) : List Violation :=
  checkPrim [name] false restricted mn mx (lookupV name c)

/-- Modelled from the spec: the base record's own check contributes no
logic ("the base record contributes no logic, only field presence and
defaults"), so `super().check_values()` yields no violations. -/
def coqpitBaseCheck (_c : List (String × Value)) : List Violation := []

/-- The `GSTConfig` dataclass of the source: global style token module
configuration, with the source's declared defaults. -/
structure GSTConfig where
  gst_style_input_wav : Option String := none
  gst_style_input_weights : Option (List (String × Value)) := none
  gst_embedding_dim : Int := 256
  gst_use_speaker_embedding : Bool := false
  gst_num_heads : Int := 4
  gst_num_style_tokens : Int := 10

def optStrV : Option String → Value
  | none => .vNone
  | some s => .vStr s

def optDictV : Option (List (String × Value)) → Value
  | none => .vNone
  | some d => .vDict d

/-- The `asdict(self)` view of a `GSTConfig`, in declaration order. -/
def GSTConfig.asdict (g : GSTConfig) : List (String × Value) :=
  [ ("gst_style_input_wav", optStrV g.gst_style_input_wav),
    ("gst_style_input_weights", optDictV g.gst_style_input_weights),
    ("gst_embedding_dim", .vInt g.gst_embedding_dim),
    ("gst_use_speaker_embedding", .vBool g.gst_use_speaker_embedding),
    ("gst_num_heads", .vInt g.gst_num_heads),
    ("gst_num_style_tokens", .vInt g.gst_num_style_tokens) ]

/-- `GSTConfig.check_values` from the source: the base check followed by
the six `check_argument` calls, in the source's call order (note: the
weights field is checked before the wav field, unlike their declaration
order). -/
def GSTConfig.check_values (g : GSTConfig) : List Violation :=
  let c := g.asdict
  coqpitBaseCheck c
    ++ check_argument "gst_style_input_weights" c false none none
    ++ check_argument "gst_style_input_wav" c false none none
    ++ check_argument "gst_embedding_dim" c true (some 0) (some 1000)
    ++ check_argument "gst_use_speaker_embedding" c false none none
    ++ check_argument "gst_num_heads" c true (some 2) (some 10)
    ++ check_argument "gst_num_style_tokens" c true (some 1) (some 1000)

/-- The `CharactersConfig` dataclass of the source: character /
phoneme set configuration, with the source's declared defaults. -/
structure CharactersConfig where
  pad : Option String := none
  eos : Option String := none
  bos : Option String := none
  characters : Option String := none
  punctuations : Option String := none
  phonemes : Option String := none
  unique : Bool := true

/-- The `asdict(self)` view of a `CharactersConfig`, in declaration
order (`punctuations` is declared before `phonemes`). -/
def CharactersConfig.asdict (ch : CharactersConfig) :
    List (String × Value) :=
  [ ("pad", optStrV ch.pad),
    ("eos", optStrV ch.eos),
    ("bos", optStrV ch.bos),
    ("characters", optStrV ch.characters),
    ("punctuations", optStrV ch.punctuations),
    ("phonemes", optStrV ch.phonemes),
    ("unique", .vBool ch.unique) ]

/-- `CharactersConfig.check_values` from the source: six restricted
`check_argument` calls and no base check; the source checks `phonemes`
before `punctuations`, the reverse of their declaration order, and
never checks `unique`. -/
def CharactersConfig.check_values (ch : CharactersConfig) : List Violation :=
  let c := ch.asdict
  check_argument "pad" c true none none
    ++ check_argument "eos" c true none none
    ++ check_argument "bos" c true none none
    ++ check_argument "characters" c true none none
    ++ check_argument "phonemes" c true none none
    ++ check_argument "punctuations" c true none none



/-! ### Part 2: the generic schema engine, modelled from the spec

The spec's SchemaRecord / FieldSpec data model and the instantiate,
validate and merge operations live in the `coqpit` dependency and are
not part of the repository sources; they are modelled here from the
specification's words.  Every recursive function of the engine takes an
explicit fuel argument and recurses structurally on it, consuming one
unit per tree node descended into; this keeps every definition
computable by the kernel.  Theorems either hold for every fuel, or
carry a fuel-sufficiency hypothesis (`enoughS`), and a stability
theorem shows that once the fuel suffices the functions no longer
depend on it, so the fuel is an artifact of the embedding and not of
the modelled engine. -/

/-- Declared primitive kinds of a field. -/
inductive PrimKind where
  | kStr
  | kBool
  | kInt
  | kFloat
  | kDict
  deriving DecidableEq, Repr

/-- Default of a primitive field: the MISSING sentinel or a value. -/
inductive PrimDefault where
  | missing
  | val (v : Value)

/-- Default of a nested-record field: MISSING, an explicit `none`, or a
factory producing a freshly instantiated sub-record. -/
inductive RecDefault where
  | missing
  | noneD
  | factory

/-- Default of a sequence-of-record field: MISSING, an explicit `none`,
or a factory producing `n` freshly instantiated elements. -/
inductive SeqDefault where
  | missing
  | noneD
  | factory (n : Nat)

def PrimDefault.isMissing : PrimDefault → Bool
  | .missing => true
  | _ => false

def RecDefault.isMissing : RecDefault → Bool
  | .missing => true
  | _ => false

def SeqDefault.isMissing : SeqDefault → Bool
  | .missing => true
  | _ => false

/-- Modelled from the spec: one field of a SchemaRecord — its name,
kind, default, restricted flag and numeric bounds; nested-record and
sequence-of-record fields carry their sub-schema.  A SchemaRecord is an
ordered list of these. -/
inductive FieldSpec where
  | prim (name : String) (kind : PrimKind) (dflt : PrimDefault)
      (restricted : Bool) (minV maxV : Option Int)
  | recordF (name : String) (sub : List FieldSpec) (dflt : RecDefault)
  | seqRecordF (name : String) (sub : List FieldSpec) (dflt : SeqDefault)
      (restricted : Bool)

def FieldSpec.name : FieldSpec → String
  | .prim n _ _ _ _ _ => n
  | .recordF n _ _ => n
  | .seqRecordF n _ _ _ => n

/-- The declared primitive kind of a field, when it is primitive. -/
def FieldSpec.primKind : FieldSpec → Option PrimKind
  | .prim _ k _ _ _ _ => some k
  | _ => none

/-- A list of keys with no duplicates. -/
def nodupKeys : List String → Bool
  | [] => true
  | k :: rest => !rest.contains k && nodupKeys rest

mutual

/-- The given fuel covers the nesting depth of one field's subtree. -/
def enoughF : Nat → FieldSpec → Bool
  | 0, _ => false
  | _+1, .prim _ _ _ _ _ _ => true
  | fuel+1, .recordF _ sub _ => enoughS fuel sub
  | fuel+1, .seqRecordF _ sub _ _ => enoughS fuel sub

/-- The given fuel covers the nesting depth of a whole field list. -/
def enoughS : Nat → List FieldSpec → Bool
  | 0, _ => false
  | fuel+1, fs => fs.all (fun f => enoughF fuel f)

end

mutual

/-- Modelled from the spec: the default value of one field, as filled
in by `instantiate` — MISSING becomes the absent value `vNone`,
explicit defaults are copied, record factories recursively instantiate
the sub-schema, and sequence factories produce the declared number of
freshly instantiated elements. -/
def instF : Nat → FieldSpec → Value
  | 0, _ => .vNone
  | _+1, .prim _ _ d _ _ _ =>
    match d with
    | .missing => .vNone
    | .val v => v
  | fuel+1, .recordF _ sub d =>
    match d with
    | .missing => .vNone
    | .noneD => .vNone
    | .factory => .vRec (instFieldsF fuel sub)
  | fuel+1, .seqRecordF _ sub d _ =>
    match d with
    | .missing => .vNone
    | .noneD => .vNone
    | .factory k => .vSeq (List.replicate k (.vRec (instFieldsF fuel sub)))

/-- Modelled from the spec: `instantiate` over a field list, producing
the name-to-default association in declaration order. -/
def instFieldsF : Nat → List FieldSpec → List (String × Value)
  | 0, _ => []
  | fuel+1, fs => fs.map (fun f => (f.name, instF fuel f))

end

/-- Validate the elements of a sequence-of-record field, index by
index, with index-qualified path segments. -/
def seqElemsGo (chk : List (String × Value) → List Violation) (n : String) :
    Nat → List Value → List Violation
  | _, [] => []
  | i, .vRec fsx :: rest =>
    (chk fsx).map (Violation.pushIdx n i) ++ seqElemsGo chk n (i + 1) rest
  | i, _ :: rest =>
    mkWrongType [n, toString i] :: seqElemsGo chk n (i + 1) rest

mutual

/-- Modelled from the spec: the validation check of one field against
its instance value.  Primitive fields go through the `checkPrim` rules;
nested records recurse, prefixing paths with the field name; sequences
of records recurse element-wise with index-qualified paths, an empty
sequence being flagged only when the field is restricted; a value of
the wrong shape for a nested field is a `WrongType` finding. -/
def checkF : Nat → FieldSpec → Value → List Violation
  | 0, _, _ => []
  | _+1, .prim n _ d r mn mx, v => checkPrim [n] d.isMissing r mn mx v
  | fuel+1, .recordF n sub d, v =>
    match v with
    | .vNone => if d.isMissing then [mkMissing [n]] else []
    | .vRec fsv => (vFieldsF fuel sub fsv).map (Violation.push n)
    | _ => [mkWrongType [n]]
  | fuel+1, .seqRecordF n sub d r, v =>
    match v with
    | .vNone => if d.isMissing then [mkMissing [n]] else []
    | .vSeq xs =>
      (if r && xs.isEmpty then [mkMissing [n]] else [])
        ++ seqElemsGo (fun fsx => vFieldsF fuel sub fsx) n 0 xs
    | _ => [mkWrongType [n]]

/-- Modelled from the spec: `validate` over a field list — every
field is checked, in declaration order, and all findings are
accumulated into one ordered list (never raised). -/
def vFieldsF : Nat → List FieldSpec → List (String × Value) → List Violation
  | 0, _, _ => []
  | fuel+1, fs, inst =>
    (fs.map (fun f => checkF fuel f (lookupV f.name inst))).flatten

end

/-- Paths of the MISSING-default fields inside the elements of a
sequence-of-record factory default. -/
def missSeqGo (paths : List (List String)) (n : String) :
    Nat → Nat → List (List String)
  | _, 0 => []
  | i, k+1 =>
    paths.map (fun p => n :: toString i :: p) ++ missSeqGo paths n (i + 1) k

mutual

/-- The field paths, depth-first in declaration order, of the fields of
one field's subtree whose default is the MISSING sentinel. -/
def missF : Nat → FieldSpec → List (List String)
  | 0, _ => []
  | _+1, .prim n _ d _ _ _ => if d.isMissing then [[n]] else []
  | fuel+1, .recordF n sub d =>
    match d with
    | .missing => [[n]]
    | .noneD => []
    | .factory => (missFieldsF fuel sub).map (fun p => n :: p)
  | fuel+1, .seqRecordF n sub d _ =>
    match d with
    | .missing => [[n]]
    | .noneD => []
    | .factory k => missSeqGo (missFieldsF fuel sub) n 0 k

/-- The MISSING-default field paths of a whole field list. -/
def missFieldsF : Nat → List FieldSpec → List (List String)
  | 0, _ => []
  | fuel+1, fs => (fs.map (fun f => missF fuel f)).flatten

end

mutual

/-- Well-formedness of one field: sub-schemas are well-formed (within
the given fuel). -/
def wfField : Nat → FieldSpec → Bool
  | 0, _ => false
  | _+1, .prim _ _ _ _ _ _ => true
  | fuel+1, .recordF _ sub _ => wfFields fuel sub
  | fuel+1, .seqRecordF _ sub _ _ => wfFields fuel sub

/-- Well-formedness of a field list: field names are unique within the
record (a stated invariant of SchemaRecords) and sub-schemas are
well-formed. -/
def wfFields : Nat → List FieldSpec → Bool
  | 0, _ => false
  | fuel+1, fs =>
    nodupKeys (fs.map FieldSpec.name) && fs.all (fun f => wfField fuel f)

end

mutual

/-- The declared non-MISSING defaults of one field's subtree satisfy
the field's own constraints: an explicit primitive default passes its
own check, and a restricted sequence field does not default to an empty
sequence. -/
def dOkField : Nat → FieldSpec → Bool
  | 0, _ => false
  | _+1, .prim n _ d r mn mx =>
    match d with
    | .missing => true
    | .val v => (checkPrim [n] false r mn mx v).isEmpty
  | fuel+1, .recordF _ sub d =>
    match d with
    | .factory => dOkFields fuel sub
    | _ => true
  | fuel+1, .seqRecordF _ sub d r =>
    match d with
    | .factory k => !(r && k == 0) && dOkFields fuel sub
    | _ => true

/-- The declared defaults of a whole field list satisfy their own
constraints. -/
def dOkFields : Nat → List FieldSpec → Bool
  | 0, _ => false
  | fuel+1, fs => fs.all (fun f => dOkField fuel f)

end

/-- Modelled from the spec: the merge-time error taxonomy — merge fails
only with `UnknownField`, naming the unrecognized key. -/
inductive MergeError where
  | unknownField (k : String)
  deriving DecidableEq, Repr

/-- Find the field of a record schema with the given name. -/
def findF (fs : List FieldSpec) (k : String) : Option FieldSpec :=
  fs.find? (fun f => f.name == k)

mutual

/-- Modelled from the spec: merging one override value into the current
value of a field.  Primitive fields are replaced; sequence-of-record
fields are replaced wholesale (sequences are never element-wise
merged); a record-shaped override for a nested-record field merges
recursively into the existing nested instance (starting from an empty
record when the current value holds no record), while any other
override value replaces the field. -/
def combineOne : Nat → FieldSpec → Value → Value → Except MergeError Value
  | 0, _, cur, _ => .ok cur
  | _+1, .prim _ _ _ _ _ _, _, ov => .ok ov
  | _+1, .seqRecordF _ _ _ _, _, ov => .ok ov
  | fuel+1, .recordF _ sub _, cur, ov =>
    match ov with
    | .vRec ovfs =>
      (mergeOvF fuel sub
        (match cur with
         | .vRec curfs => curfs
         | _ => []) ovfs).map .vRec
    | _ => .ok ov

/-- Modelled from the spec: merging an override tree into an instance,
key by key.  A key not present in the schema fails the whole merge with
`UnknownField`; a known key has its value combined per the field's kind
and written into the instance. -/
def mergeOvF : Nat → List FieldSpec → List (String × Value) →
    List (String × Value) → Except MergeError (List (String × Value))
  | 0, _, inst, _ => .ok inst
  | _+1, _, inst, [] => .ok inst
  | fuel+1, fs, inst, (k, v) :: rest =>
    match findF fs k with
    | none => .error (.unknownField k)
    | some f =>
      match combineOne fuel f (lookupV k inst) v with
      | .error e => .error e
      | .ok w => mergeOvF fuel fs (setV inst k w) rest

end

mutual

/-- An override value is a tree: any nested record override has unique
keys at every level. -/
def wfOvVal : Nat → Value → Bool
  | 0, _ => true
  | fuel+1, .vRec fsv => wfOvList fuel fsv
  | _+1, _ => true

/-- An override list is a tree: keys are unique at this level (an
override tree is a dictionary) and nested values are trees. -/
def wfOvList : Nat → List (String × Value) → Bool
  | 0, _ => true
  | _+1, [] => true
  | fuel+1, (k, v) :: rest =>
    !(keysOf rest).contains k && wfOvVal fuel v && wfOvList fuel rest

end

/-! ### The schemas of the repository, at the engine level -/

/-- Modelled from the spec: `BaseAudioConfig` lives outside the given
sources and the spec does not enumerate its fields; it is modelled as a
nested record with no MISSING-default or restricted fields. -/
def audioFields : List FieldSpec := []

/-- Modelled from the spec: `BaseDatasetConfig` lives outside the given
sources and the spec does not enumerate its fields; it is modelled as a
record with no MISSING-default or restricted fields. -/
def datasetFields : List FieldSpec := []

/-- The engine-level schema of `CharactersConfig`: six restricted
string fields defaulting to `None` (declaration order has
`punctuations` before `phonemes`) and the unrestricted `unique` flag. -/
def charactersFields : List FieldSpec :=
  [ .prim "pad" .kStr (.val .vNone) true none none,
    .prim "eos" .kStr (.val .vNone) true none none,
    .prim "bos" .kStr (.val .vNone) true none none,
    .prim "characters" .kStr (.val .vNone) true none none,
    .prim "punctuations" .kStr (.val .vNone) true none none,
    .prim "phonemes" .kStr (.val .vNone) true none none,
    .prim "unique" .kBool (.val (.vBool true)) false none none ]

/-- The `min_seq_len` field of `BaseTTSConfig`: kind int, default `1`,
unrestricted. -/
def min_seq_lenField : FieldSpec :=
  .prim "min_seq_len" .kInt (.val (.vInt 1)) false none none

/-- The `max_seq_len` field of `BaseTTSConfig`: declared with kind int
but defaulting to the float value `inf`, unrestricted. -/
def max_seq_lenField : FieldSpec :=
  .prim "max_seq_len" .kInt (.val .vInf) false none none

/-- The engine-level schema of `BaseTTSConfig`, in the source's
declaration order.  The fields contributed by the `BaseTrainingConfig`
base record live outside the given sources; per the spec the base
record contributes only field presence and defaults, and none of its
fields are described, so it is modelled as contributing none. -/
def baseTTSFields : List FieldSpec :=
  [ .recordF "audio" audioFields .factory,
    .prim "use_phonemes" .kBool (.val (.vBool false)) false none none,
    .prim "phoneme_language" .kStr (.val .vNone) false none none,
    .prim "compute_input_seq_cache" .kBool (.val (.vBool false)) false none none,
    .prim "text_cleaner" .kStr .missing false none none,
    .prim "enable_eos_bos_chars" .kBool (.val (.vBool false)) false none none,
    .prim "test_sentences_file" .kStr (.val (.vStr "")) false none none,
    .prim "phoneme_cache_path" .kStr (.val .vNone) false none none,
    .recordF "characters" charactersFields .noneD,
    .prim "batch_group_size" .kInt (.val (.vInt 0)) false none none,
    .prim "loss_masking" .kBool (.val .vNone) false none none,
    min_seq_lenField,
    max_seq_lenField,
    .prim "compute_f0" .kBool (.val (.vBool false)) false none none,
    .prim "use_noise_augment" .kBool (.val (.vBool false)) false none none,
    .prim "add_blank" .kBool (.val (.vBool false)) false none none,
    .seqRecordF "datasets" datasetFields (.factory 1) false ]


/-! ### Helper lemmas -/

theorem lookupV_cons_self (k : String) (v : Value) (c : List (String × Value)) :
    lookupV k ((k, v) :: c) = v := by
  simp [lookupV]

theorem lookupV_cons_ne (k k₁ : String) (v : Value) (c : List (String × Value))
    (h : k₁ ≠ k) : lookupV k ((k₁, v) :: c) = lookupV k c := by
  simp [lookupV, h]

theorem lookupV_setV_self (c : List (String × Value)) (k : String) (w : Value) :
    lookupV k (setV c k w) = w := by
  induction c with
  | nil => simp [setV, lookupV]
  | cons e rest ih =>
    obtain ⟨k₁, v₁⟩ := e
    by_cases h : k₁ = k
    · subst h; simp [setV, lookupV]
    · simp [setV, lookupV, h, ih]

theorem lookupV_setV_ne (c : List (String × Value)) (k k' : String) (w : Value)
    (h : k' ≠ k) : lookupV k' (setV c k w) = lookupV k' c := by
  induction c with
  | nil => simp [setV, lookupV, Ne.symm h]
  | cons e rest ih =>
    obtain ⟨k₁, v₁⟩ := e
    by_cases h₁ : k₁ = k
    · subst h₁
      simp [setV, lookupV, Ne.symm h]
    · simp [setV, lookupV, h₁, ih]

theorem mem_keysOf_setV_iff (c : List (String × Value)) (k k' : String)
    (w : Value) : k' ∈ keysOf (setV c k w) ↔ k' = k ∨ k' ∈ keysOf c := by
  induction c with
  | nil => simp [setV, keysOf]
  | cons e rest ih =>
    obtain ⟨k₁, v₁⟩ := e
    by_cases h : k₁ = k
    · subst h
      simp only [setV, beq_self_eq_true, if_pos, keysOf, List.map_cons,
        List.mem_cons]
      tauto
    · simp only [setV, beq_iff_eq, h, if_false, keysOf, List.map_cons,
        List.mem_cons]
      simp only [keysOf] at ih
      rw [ih]
      tauto

theorem setV_self (c : List (String × Value)) (k : String)
    (hmem : k ∈ keysOf c) : setV c k (lookupV k c) = c := by
  induction c with
  | nil => simp [keysOf] at hmem
  | cons e rest ih =>
    obtain ⟨k₁, v₁⟩ := e
    by_cases h : k₁ = k
    · subst h; simp [setV, lookupV]
    · simp only [keysOf, List.map_cons, List.mem_cons] at hmem
      rcases hmem with hmem | hmem
      · exact absurd hmem.symm h
      · simp [setV, lookupV, h, ih hmem]

theorem nodupKeys_cons (k : String) (rest : List String)
    (h : nodupKeys (k :: rest) = true) :
    k ∉ rest ∧ nodupKeys rest = true := by
  simp only [nodupKeys, Bool.and_eq_true, Bool.not_eq_true'] at h
  exact ⟨by simpa using h.1, h.2⟩

/-- `rangeCheck` emits nothing or a single `OutOfRange` at the given path. -/
theorem rangeCheck_cases (path : List String) (v : Value) (mn mx : Option Int) :
    rangeCheck path v mn mx = [] ∨
      rangeCheck path v mn mx = [mkOutOfRange path] := by
  unfold rangeCheck
  rcases mn with _ | m <;> rcases mx with _ | M <;> dsimp only
  · simp
  · split_ifs <;> simp
  · split_ifs <;> simp
  · split_ifs <;> simp

/-- `checkPrim` emits nothing, a single `MissingRequired`, or a single
`OutOfRange`, always at the given path. -/
theorem checkPrim_cases (path : List String) (md r : Bool) (mn mx : Option Int)
    (v : Value) :
    checkPrim path md r mn mx v = [] ∨
      checkPrim path md r mn mx v = [mkMissing path] ∨
      checkPrim path md r mn mx v = [mkOutOfRange path] := by
  have hrc := rangeCheck_cases path v mn mx
  unfold checkPrim
  cases v <;> dsimp only <;> split_ifs <;>
    first
      | exact Or.inl rfl
      | exact Or.inr (Or.inl rfl)
      | tauto

/-- Every violation emitted by `checkPrim` carries the given path. -/
theorem checkPrim_path (path : List String) (md r : Bool) (mn mx : Option Int)
    (v : Value) (w : Violation) (hw : w ∈ checkPrim path md r mn mx v) :
    w.field_path = path := by
  rcases checkPrim_cases path md r mn mx v with h | h | h <;> rw [h] at hw
  · simp at hw
  · simp only [List.mem_singleton] at hw; subst hw; rfl
  · simp only [List.mem_singleton] at hw; subst hw; rfl

/-- Every violation emitted by `check_argument` carries the checked
field's name as its path. -/
theorem check_argument_path (name : String) (c : List (String × Value))
    (r : Bool) (mn mx : Option Int) (w : Violation)
    (hw : w ∈ check_argument name c r mn mx) : w.field_path = [name] :=
  checkPrim_path [name] false r mn mx _ w hw

/-- A field name is found in a schema exactly when it is among the
schema's field names. -/
theorem findF_eq_none_iff (fs : List FieldSpec) (k : String) :
    findF fs k = none ↔ k ∉ fs.map FieldSpec.name := by
  simp only [findF, List.find?_eq_none, List.mem_map, beq_iff_eq]
  constructor
  · rintro h ⟨f, hf, hname⟩
    exact h f hf hname
  · intro h f hf hname
    exact h ⟨f, hf, hname⟩

/-- An `Except.map` application yields `ok` exactly when the mapped
computation did. -/
theorem exceptMapOk {α β ε : Type} (f : α → β) (x : Except ε α) (b : β)
    (h : Except.map f x = Except.ok b) : ∃ a, x = Except.ok a ∧ b = f a := by
  cases x with
  | error e => simp [Except.map] at h
  | ok a =>
    simp only [Except.map, Except.ok.injEq] at h
    exact ⟨a, rfl, h.symm⟩

/-- Merging never removes keys from the instance. -/
theorem mergeOv_keys_mono (fuel : Nat) :
    ∀ (fs : List FieldSpec) (inst ov m : List (String × Value)),
      mergeOvF fuel fs inst ov = .ok m → ∀ k, k ∈ keysOf inst → k ∈ keysOf m := by
  induction fuel with
  | zero =>
    intro fs inst ov m h k hk
    simp only [mergeOvF, Except.ok.injEq] at h
    exact h ▸ hk
  | succ fuel ih =>
    intro fs inst ov m h k hk
    match ov with
    | [] =>
      simp only [mergeOvF, Except.ok.injEq] at h
      exact h ▸ hk
    | (k₁, v₁) :: rest =>
      simp only [mergeOvF] at h
      cases hf : findF fs k₁ with
      | none => simp [hf] at h
      | some f =>
        simp only [hf] at h
        cases hc : combineOne fuel f (lookupV k₁ inst) v₁ with
        | error e => simp [hc] at h
        | ok w =>
          simp only [hc] at h
          exact ih fs (setV inst k₁ w) rest m h k
            ((mem_keysOf_setV_iff inst k₁ k w).2 (Or.inr hk))

/-- Merging leaves the value of every key outside the override tree
unchanged. -/
theorem mergeOv_untouched (fuel : Nat) :
    ∀ (fs : List FieldSpec) (inst ov m : List (String × Value)),
      mergeOvF fuel fs inst ov = .ok m →
      ∀ k, k ∉ keysOf ov → lookupV k m = lookupV k inst := by
  induction fuel with
  | zero =>
    intro fs inst ov m h k _
    simp only [mergeOvF, Except.ok.injEq] at h
    exact h ▸ rfl
  | succ fuel ih =>
    intro fs inst ov m h k hk
    match ov with
    | [] =>
      simp only [mergeOvF, Except.ok.injEq] at h
      exact h ▸ rfl
    | (k₁, v₁) :: rest =>
      simp only [keysOf, List.map_cons, List.mem_cons, not_or] at hk
      obtain ⟨hne, hk⟩ := hk
      simp only [mergeOvF] at h
      cases hf : findF fs k₁ with
      | none => simp [hf] at h
      | some f =>
        simp only [hf] at h
        cases hc : combineOne fuel f (lookupV k₁ inst) v₁ with
        | error e => simp [hc] at h
        | ok w =>
          simp only [hc] at h
          have := ih fs (setV inst k₁ w) rest m h k (by simpa [keysOf] using hk)
          rw [this, lookupV_setV_ne inst k₁ k w hne]

/-- Joint idempotence of the merge engine: re-merging a tree-shaped
override into an already merged result changes nothing, at every fuel. -/
theorem merge_idem_aux (fuel : Nat) :
    (∀ (f : FieldSpec) (cur v r : Value), wfOvVal fuel v = true →
      combineOne fuel f cur v = .ok r → combineOne fuel f r v = .ok r) ∧
    (∀ (fs : List FieldSpec) (inst ov m : List (String × Value)),
      wfOvList fuel ov = true → mergeOvF fuel fs inst ov = .ok m →
      mergeOvF fuel fs m ov = .ok m) := by
  induction fuel with
  | zero =>
    constructor
    · intro f cur v r _ h
      simp only [combineOne, Except.ok.injEq] at h
      simp [combineOne, h]
    · intro fs inst ov m _ h
      simp only [mergeOvF, Except.ok.injEq] at h
      simp [mergeOvF, h]
  | succ fuel ih =>
    constructor
    · intro f cur v r hwf h
      match f with
      | .prim n k d rr mn mx =>
        simp only [combineOne, Except.ok.injEq] at h
        simp [combineOne, h]
      | .seqRecordF n sub d rr =>
        simp only [combineOne, Except.ok.injEq] at h
        simp [combineOne, h]
      | .recordF n sub d =>
        match v with
        | .vRec ovfs =>
          simp only [combineOne] at h ⊢
          simp only [wfOvVal] at hwf
          obtain ⟨m', hm, rfl⟩ := exceptMapOk _ _ _ h
          have h2 := ih.2 sub _ ovfs m' hwf hm
          simp only [h2, Except.map]
        | .vNone =>
          simp only [combineOne, Except.ok.injEq] at h
          subst h; rfl
        | .vStr s =>
          simp only [combineOne, Except.ok.injEq] at h
          subst h; rfl
        | .vBool b =>
          simp only [combineOne, Except.ok.injEq] at h
          subst h; rfl
        | .vInt i =>
          simp only [combineOne, Except.ok.injEq] at h
          subst h; rfl
        | .vInf =>
          simp only [combineOne, Except.ok.injEq] at h
          subst h; rfl
        | .vDict d' =>
          simp only [combineOne, Except.ok.injEq] at h
          subst h; rfl
        | .vSeq xs =>
          simp only [combineOne, Except.ok.injEq] at h
          subst h; rfl
    · intro fs inst ov m hwf h
      match ov with
      | [] =>
        simp only [mergeOvF, Except.ok.injEq] at h
        simp [mergeOvF, h]
      | (k₁, v₁) :: rest =>
        simp only [wfOvList, Bool.and_eq_true, Bool.not_eq_true'] at hwf
        obtain ⟨⟨hnotin, hwfv⟩, hwfrest⟩ := hwf
        have hnotin' : k₁ ∉ keysOf rest := by
          simpa using hnotin
        simp only [mergeOvF] at h ⊢
        cases hf : findF fs k₁ with
        | none => simp [hf] at h
        | some f =>
          simp only [hf] at h ⊢
          cases hc : combineOne fuel f (lookupV k₁ inst) v₁ with
          | error e => simp [hc] at h
          | ok w =>
            simp only [hc] at h
            have hlk : lookupV k₁ m = w := by
              rw [mergeOv_untouched fuel fs (setV inst k₁ w) rest m h k₁ hnotin',
                lookupV_setV_self]
            have hmem : k₁ ∈ keysOf m :=
              mergeOv_keys_mono fuel fs (setV inst k₁ w) rest m h k₁
                ((mem_keysOf_setV_iff inst k₁ k₁ w).2 (Or.inl rfl))
            have hc' : combineOne fuel f (lookupV k₁ m) v₁ = .ok w := by
              rw [hlk]
              exact ih.1 f (lookupV k₁ inst) v₁ w hwfv hc
            simp only [hc']
            have hset : setV m k₁ w = m := by
              have := setV_self m k₁ hmem
              rwa [hlk] at this
            rw [hset]
            exact ih.2 fs (setV inst k₁ w) rest m hwfrest h

/-- An override containing a key unknown to the schema makes the merge
fail with an `UnknownField` error, given fuel for its entries. -/
theorem merge_unknown_errors :
    ∀ (ov : List (String × Value)) (fuel : Nat) (fs : List FieldSpec)
      (inst : List (String × Value)), ov.length ≤ fuel →
      (∃ p ∈ ov, p.1 ∉ fs.map FieldSpec.name) →
      ∃ k, mergeOvF fuel fs inst ov = .error (.unknownField k) := by
  intro ov
  induction ov with
  | nil =>
    intro fuel fs inst _ hx
    simp at hx
  | cons e rest ih =>
    intro fuel fs inst hlen hx
    obtain ⟨k₁, v₁⟩ := e
    match fuel with
    | 0 => simp at hlen
    | fuel + 1 =>
      cases hf : findF fs k₁ with
      | none => exact ⟨k₁, by simp [mergeOvF, hf]⟩
      | some f =>
        have hk₁ : k₁ ∈ fs.map FieldSpec.name := by
          by_contra hk
          rw [(findF_eq_none_iff fs k₁).2 hk] at hf
          cases hf
        have hx' : ∃ p ∈ rest, p.1 ∉ fs.map FieldSpec.name := by
          obtain ⟨p, hp, hpn⟩ := hx
          rcases List.mem_cons.1 hp with hp | hp
          · subst hp; exact absurd hk₁ hpn
          · exact ⟨p, hp, hpn⟩
        have hlen' : rest.length ≤ fuel := by
          simpa using hlen
        cases hc : combineOne fuel f (lookupV k₁ inst) v₁ with
        | error e =>
          obtain ⟨k'⟩ := e
          exact ⟨k', by simp [mergeOvF, hf, hc]⟩
        | ok w =>
          obtain ⟨k', hk'⟩ := ih fuel fs (setV inst k₁ w) hlen' hx'
          exact ⟨k', by simp [mergeOvF, hf, hc, hk']⟩

/-- C7: merge is idempotent — for every instance and every tree-shaped
override whose keys the merge accepts, merging the already merged
result with the same overrides yields it unchanged:
`merge(merge(i, o), o) = merge(i, o)`. -/
theorem claim_C7_merge_idempotent (fuel : Nat) (fs : List FieldSpec)
    (inst ov m : List (String × Value)) (hwf : wfOvList fuel ov = true)
    (h : mergeOvF fuel fs inst ov = .ok m) :
    mergeOvF fuel fs m ov = .ok m :=
  (merge_idem_aux fuel).2 fs inst ov m hwf h

def idemSchema : List FieldSpec :=
  [ .prim "a" .kInt (.val (.vInt 0)) false none none,
    .recordF "r" [.prim "b" .kStr (.val .vNone) false none none] .factory ]

def idemInstance : List (String × Value) :=
  [("a", .vInt 0), ("r", .vRec [("b", .vNone)])]

def idemOverride : List (String × Value) :=
  [("a", .vInt 5), ("r", .vRec [("b", .vStr "x")])]

def idemMerged : List (String × Value) :=
  [("a", .vInt 5), ("r", .vRec [("b", .vStr "x")])]

theorem claim_C7_witness :
    wfOvList 10 idemOverride = true ∧
    mergeOvF 10 idemSchema idemInstance idemOverride = .ok idemMerged ∧
    mergeOvF 10 idemSchema idemMerged idemOverride = .ok idemMerged :=
  ⟨by decide, by rfl,
    claim_C7_merge_idempotent 10 idemSchema idemInstance idemOverride idemMerged
      (by decide) (by rfl)⟩

/-- C8: merging an override tree containing a key not present in the
schema fails with an `UnknownField` error rather than silently ignoring
the key, and never produces a merged instance — in this pure embedding
the failed merge returns only the error, so the target instance is left
entirely unchanged. -/
theorem claim_C8_unknown_key_fails (fuel : Nat) (fs : List FieldSpec)
    (inst ov : List (String × Value)) (hfuel : ov.length ≤ fuel)
    (hunk : ∃ p ∈ ov, p.1 ∉ fs.map FieldSpec.name) :
    (∃ k, mergeOvF fuel fs inst ov = .error (.unknownField k)) ∧
    ∀ m, mergeOvF fuel fs inst ov ≠ .ok m := by
  obtain ⟨k, hk⟩ := merge_unknown_errors ov fuel fs inst hfuel hunk
  refine ⟨⟨k, hk⟩, fun m hm => ?_⟩
  rw [hk] at hm
  cases hm

theorem claim_C8_witness :
    ([("a", Value.vInt 5), ("typo_field", Value.vInt 1)].length ≤ 10 ∧
      (("typo_field", Value.vInt 1) ∈
          [("a", Value.vInt 5), ("typo_field", Value.vInt 1)] ∧
        "typo_field" ∉ idemSchema.map FieldSpec.name)) ∧
    (∃ k, mergeOvF 10 idemSchema idemInstance
        [("a", Value.vInt 5), ("typo_field", Value.vInt 1)] =
      .error (.unknownField k)) ∧
    ∀ m, mergeOvF 10 idemSchema idemInstance
        [("a", Value.vInt 5), ("typo_field", Value.vInt 1)] ≠ .ok m :=
  ⟨⟨by decide, by simp, by decide⟩,
    claim_C8_unknown_key_fails 10 idemSchema idemInstance
      [("a", Value.vInt 5), ("typo_field", Value.vInt 1)] (by decide)
      ⟨("typo_field", Value.vInt 1), by simp, by decide⟩⟩

/-- Looking a field's name up in a name-keyed image of a duplicate-free
field list retrieves that field's image. -/
theorem lookupV_map_name (g : FieldSpec → Value) :
    ∀ (fs : List FieldSpec) (f : FieldSpec),
      nodupKeys (fs.map FieldSpec.name) = true → f ∈ fs →
      lookupV f.name (fs.map (fun f' => (f'.name, g f'))) = g f := by
  intro fs
  induction fs with
  | nil => intro f _ hmem; cases hmem
  | cons f₁ rest ih =>
    intro f hnd hmem
    rw [List.map_cons] at hnd
    obtain ⟨hnotin, hnd'⟩ := nodupKeys_cons _ _ hnd
    rcases List.mem_cons.1 hmem with rfl | hmem'
    · simp [lookupV]
    · have hne : f₁.name ≠ f.name := by
        intro he
        exact hnotin (he ▸ List.mem_map.2 ⟨f, hmem', rfl⟩)
      simp only [List.map_cons, lookupV, beq_iff_eq, hne, if_false]
      exact ih f hnd' hmem'

/-- Checking the elements of a replicated freshly instantiated
sub-record produces exactly the prefixed missing-field violations, at
every starting index. -/
theorem seqElemsGo_replicate (chk : List (String × Value) → List Violation)
    (e : List (String × Value)) (paths : List (List String)) (n : String)
    (hchk : chk e = paths.map mkMissing) :
    ∀ (k i : Nat), seqElemsGo chk n i (List.replicate k (.vRec e)) =
      (missSeqGo paths n i k).map mkMissing := by
  intro k
  induction k with
  | zero => intro i; simp [seqElemsGo, missSeqGo, List.replicate]
  | succ k ih =>
    intro i
    rw [List.replicate_succ]
    simp only [seqElemsGo, missSeqGo, hchk, List.map_append, ih (i + 1)]
    congr 1
    rw [List.map_map, List.map_map]
    rfl

/-- Joint form of the instantiate-then-validate characterization: for a
well-formed schema whose declared defaults satisfy their own
constraints, validating the freshly instantiated record yields exactly
the `MissingRequired` violations of the MISSING-default fields. -/
theorem inst_validate_missing_aux (fuel : Nat) :
    (∀ f : FieldSpec, wfField fuel f = true → dOkField fuel f = true →
      checkF fuel f (instF fuel f) = (missF fuel f).map mkMissing) ∧
    (∀ fs : List FieldSpec, wfFields fuel fs = true → dOkFields fuel fs = true →
      vFieldsF fuel fs (instFieldsF fuel fs) =
        (missFieldsF fuel fs).map mkMissing) := by
  induction fuel with
  | zero =>
    constructor
    · intro f h; simp [wfField] at h
    · intro fs h; simp [wfFields] at h
  | succ fuel ih =>
    constructor
    · intro f hwf hdok
      match f with
      | .prim n k d r mn mx =>
        cases d with
        | missing =>
          simp [checkF, instF, missF, checkPrim, PrimDefault.isMissing,
            mkMissing]
        | val v =>
          simp only [dOkField] at hdok
          have hcp : checkPrim [n] false r mn mx v = [] :=
            List.isEmpty_iff.1 hdok
          simp [checkF, instF, missF, PrimDefault.isMissing, hcp]
      | .recordF n sub d =>
        cases d with
        | missing => simp [checkF, instF, missF, RecDefault.isMissing]
        | noneD => simp [checkF, instF, missF, RecDefault.isMissing]
        | factory =>
          simp only [wfField] at hwf
          simp only [dOkField] at hdok
          have h2 := ih.2 sub hwf hdok
          simp only [checkF, instF, missF, h2, List.map_map]
          rfl
      | .seqRecordF n sub d r =>
        cases d with
        | missing => simp [checkF, instF, missF, SeqDefault.isMissing]
        | noneD => simp [checkF, instF, missF, SeqDefault.isMissing]
        | factory k =>
          simp only [wfField] at hwf
          simp only [dOkField, Bool.and_eq_true] at hdok
          obtain ⟨hrk, hdok⟩ := hdok
          have h2 := ih.2 sub hwf hdok
          have hseq := seqElemsGo_replicate (fun fsx => vFieldsF fuel sub fsx)
            (instFieldsF fuel sub) (missFieldsF fuel sub) n h2 k 0
          match k with
          | 0 =>
            have hr : r = false := by
              simpa using hrk
            subst hr
            simp [checkF, instF, missF, seqElemsGo, missSeqGo, List.replicate]
          | k + 1 =>
            simp only [checkF, instF, missF]
            rw [hseq]
            simp [List.replicate_succ]
    · intro fs hwf hdok
      simp only [wfFields, Bool.and_eq_true] at hwf
      obtain ⟨hnd, hall⟩ := hwf
      simp only [dOkFields] at hdok
      simp only [vFieldsF, instFieldsF, missFieldsF]
      rw [List.map_flatten]
      rw [List.map_map]
      apply congrArg List.flatten
      apply List.map_congr_left
      intro f hf
      rw [lookupV_map_name (instF fuel) fs f hnd hf]
      exact ih.1 f (List.all_eq_true.1 hall f hf) (List.all_eq_true.1 hdok f hf)

/-! ### The claims -/

/-- C1: a `GSTConfig` built with pure defaults (`gst_num_heads = 4`
restricted to `[2,10]`, `gst_style_input_wav = none` unrestricted)
validates with no violations; the same record with `gst_num_heads`
overridden to `1` validates with exactly one `OutOfRange` violation,
whose path is `["gst_num_heads"]`, and no violation for any other
field. -/
theorem claim_C1_gst_defaults_and_override :
    GSTConfig.check_values {} = [] ∧
    GSTConfig.check_values { gst_num_heads := 1 } =
      [mkOutOfRange ["gst_num_heads"]] :=
  ⟨by decide, by decide⟩

/-- C2: validation is a total function into a violation list — it never
raises on a violation.  It checks every field and returns the
concatenation, in check order, of every field's findings (so each
field's findings appear in the output), and the source's two
`check_values` routines are exactly such concatenations of their
`check_argument` calls. -/
theorem claim_C2_validation_collects_all :
    (∀ (fuel : Nat) (fs : List FieldSpec) (inst : List (String × Value)),
      vFieldsF (fuel + 1) fs inst =
        (fs.map (fun f => checkF fuel f (lookupV f.name inst))).flatten) ∧
    (∀ (fuel : Nat) (fs : List FieldSpec) (inst : List (String × Value))
        (f : FieldSpec) (w : Violation), f ∈ fs →
      w ∈ checkF fuel f (lookupV f.name inst) →
      w ∈ vFieldsF (fuel + 1) fs inst) ∧
    (∀ g : GSTConfig,
      GSTConfig.check_values g =
        coqpitBaseCheck g.asdict
          ++ check_argument "gst_style_input_weights" g.asdict false none none
          ++ check_argument "gst_style_input_wav" g.asdict false none none
          ++ check_argument "gst_embedding_dim" g.asdict true (some 0) (some 1000)
          ++ check_argument "gst_use_speaker_embedding" g.asdict false none none
          ++ check_argument "gst_num_heads" g.asdict true (some 2) (some 10)
          ++ check_argument "gst_num_style_tokens" g.asdict true (some 1)
              (some 1000)) ∧
    (∀ ch : CharactersConfig,
      CharactersConfig.check_values ch =
        check_argument "pad" ch.asdict true none none
          ++ check_argument "eos" ch.asdict true none none
          ++ check_argument "bos" ch.asdict true none none
          ++ check_argument "characters" ch.asdict true none none
          ++ check_argument "phonemes" ch.asdict true none none
          ++ check_argument "punctuations" ch.asdict true none none) := by
  refine ⟨fun fuel fs inst => rfl, ?_, fun g => rfl, fun ch => rfl⟩
  intro fuel fs inst f w hf hw
  simp only [vFieldsF, List.mem_flatten]
  exact ⟨checkF fuel f (lookupV f.name inst), List.mem_map.2 ⟨f, hf, rfl⟩, hw⟩

def padFieldSpec : FieldSpec := .prim "pad" .kStr (.val .vNone) true none none

theorem claim_C2_witness :
    (padFieldSpec ∈ charactersFields ∧
      mkMissing ["pad"] ∈
        checkF 9 padFieldSpec
          (lookupV padFieldSpec.name [("pad", Value.vStr "")])) ∧
    mkMissing ["pad"] ∈ vFieldsF 10 charactersFields [("pad", Value.vStr "")] :=
  ⟨⟨by simp [charactersFields, padFieldSpec], by decide⟩,
    claim_C2_validation_collects_all.2.1 9 charactersFields
      [("pad", Value.vStr "")] padFieldSpec (mkMissing ["pad"])
      (by simp [charactersFields, padFieldSpec]) (by decide)⟩

/-- A single-field schema whose declared default violates its own
declared range: kind int, default `1`, restricted to `[2,10]`. -/
def badDefaultSchema : List FieldSpec :=
  [.prim "x" .kInt (.val (.vInt 1)) true (some 2) (some 10)]

/-- C3, counterexample: the claim quantifies over every schema, but a
schema whose declared (non-MISSING) default violates its own declared
range makes validation of the freshly instantiated record report an
`OutOfRange` violation, while the claim demands exactly the
`MissingRequired` violations of MISSING-default fields (here: none). -/
theorem claim_C3_counterexample :
    enoughS 10 badDefaultSchema = true ∧
    wfFields 10 badDefaultSchema = true ∧
    missFieldsF 10 badDefaultSchema = [] ∧
    vFieldsF 10 badDefaultSchema (instFieldsF 10 badDefaultSchema) =
      [mkOutOfRange ["x"]] ∧
    vFieldsF 10 badDefaultSchema (instFieldsF 10 badDefaultSchema) ≠
      (missFieldsF 10 badDefaultSchema).map mkMissing :=
  ⟨by decide, by decide, by decide, by decide, by decide⟩

/-- C3, amended: for every schema with unique field names whose
declared non-MISSING defaults satisfy their own constraints, validating
a freshly instantiated record yields exactly the `MissingRequired`
violations of the MISSING-default fields; in particular a
default-constructed `CharactersConfig` (whose six restricted string
fields default to `None`, not MISSING) validates clean, and a
default-constructed `BaseTTSConfig` is flagged exactly on
`text_cleaner`. -/
theorem claim_C3_validate_fresh_missing_only :
    (∀ (fuel : Nat) (fs : List FieldSpec), wfFields fuel fs = true →
      dOkFields fuel fs = true →
      vFieldsF fuel fs (instFieldsF fuel fs) =
        (missFieldsF fuel fs).map mkMissing) ∧
    vFieldsF 10 charactersFields (instFieldsF 10 charactersFields) = [] ∧
    vFieldsF 10 baseTTSFields (instFieldsF 10 baseTTSFields) =
      [mkMissing ["text_cleaner"]] :=
  ⟨fun fuel fs => (inst_validate_missing_aux fuel).2 fs, by decide, by decide⟩

theorem claim_C3_witness :
    wfFields 10 baseTTSFields = true ∧ dOkFields 10 baseTTSFields = true ∧
    vFieldsF 10 baseTTSFields (instFieldsF 10 baseTTSFields) =
      (missFieldsF 10 baseTTSFields).map mkMissing :=
  ⟨by decide, by decide,
    claim_C3_validate_fresh_missing_only.1 10 baseTTSFields (by decide)
      (by decide)⟩

/-- C4: on a restricted numeric field carrying both bounds, a value
inside the inclusive range produces no violation at all, and a value
outside it produces exactly one `OutOfRange` violation for that
field. -/
theorem claim_C4_restricted_numeric_range (name : String) (mn mx v : Int) :
    (mn ≤ v → v ≤ mx →
      check_argument name [(name, .vInt v)] true (some mn) (some mx) = []) ∧
    (v < mn ∨ mx < v →
      check_argument name [(name, .vInt v)] true (some mn) (some mx) =
        [mkOutOfRange [name]]) := by
  have hl : lookupV name [(name, Value.vInt v)] = .vInt v := by
    simp [lookupV]
  constructor
  · intro h1 h2
    simp only [check_argument, hl, checkPrim, isNumericV, rangeCheck,
      belowMin, aboveMax, decide_eq_true_eq, if_true]
    split_ifs <;> first | rfl | omega
  · intro h
    simp only [check_argument, hl, checkPrim, isNumericV, rangeCheck,
      belowMin, aboveMax, decide_eq_true_eq, if_true]
    split_ifs <;> first | rfl | omega

theorem claim_C4_witness :
    ((2 : Int) ≤ 4 ∧ (4 : Int) ≤ 10 ∧
      check_argument "gst_num_heads" [("gst_num_heads", .vInt 4)] true
        (some 2) (some 10) = []) ∧
    ((1 : Int) < 2 ∨ (10 : Int) < 1) ∧
    check_argument "gst_num_heads" [("gst_num_heads", .vInt 1)] true
      (some 2) (some 10) = [mkOutOfRange ["gst_num_heads"]] :=
  ⟨⟨by decide, by decide,
      (claim_C4_restricted_numeric_range "gst_num_heads" 2 10 4).1
        (by decide) (by decide)⟩,
    Or.inl (by decide),
    (claim_C4_restricted_numeric_range "gst_num_heads" 2 10 1).2
      (Or.inl (by decide))⟩

def baseTTSInstance : List (String × Value) := instFieldsF 10 baseTTSFields

def datasetsOverride : List (String × Value) := [("datasets", Value.vSeq [])]

def baseTTSMergedOnce : List (String × Value) :=
  setV baseTTSInstance "datasets" (.vSeq [])

/-- The length of a sequence value, when the value is a sequence. -/
def seqLen : Value → Option Nat
  | .vSeq xs => some xs.length
  | _ => none

/-- C5: a freshly instantiated `BaseTTSConfig` carries a `datasets`
sequence of length exactly 1 (one default `BaseDatasetConfig` from the
field's default factory) and a nested `audio` sub-record; merging the
override `{datasets: []}` replaces the sequence wholesale, making its
length 0, and replaying the same merge keeps the length at 0 and the
instance unchanged. -/
theorem claim_C5_datasets_default_and_merge :
    enoughS 10 baseTTSFields = true ∧
    seqLen (lookupV "datasets" baseTTSInstance) = some 1 ∧
    (∃ afs, lookupV "audio" baseTTSInstance = .vRec afs) ∧
    mergeOvF 10 baseTTSFields baseTTSInstance datasetsOverride =
      .ok baseTTSMergedOnce ∧
    seqLen (lookupV "datasets" baseTTSMergedOnce) = some 0 ∧
    mergeOvF 10 baseTTSFields baseTTSMergedOnce datasetsOverride =
      .ok baseTTSMergedOnce :=
  ⟨by decide, by decide, ⟨[], by rfl⟩, by rfl, by decide, by rfl⟩

/-- A `CharactersConfig` whose six restricted string fields all hold
the empty string, so that every checked field violates. -/
def allEmptyChars : CharactersConfig :=
  { pad := some "", eos := some "", bos := some "", characters := some "",
    punctuations := some "", phonemes := some "" }

/-- C6, counterexample: on a `CharactersConfig` with every checked
field violating, both the `punctuations` and the `phonemes` violations
are reported, but the `punctuations` violation (its field declared
before `phonemes`) does NOT precede the `phonemes` violation, contrary
to the claimed declaration-order emission. -/
theorem claim_C6_counterexample :
    mkMissing ["punctuations"] ∈ allEmptyChars.check_values ∧
    mkMissing ["phonemes"] ∈ allEmptyChars.check_values ∧
    ¬ List.indexOf (mkMissing ["punctuations"]) allEmptyChars.check_values <
        List.indexOf (mkMissing ["phonemes"]) allEmptyChars.check_values :=
  ⟨by decide, by decide, by decide⟩

/-- C6, amended: a validation run emits its violations in the order the
record's `check_values` routine performs its field checks, which for
`CharactersConfig` is pad, eos, bos, characters, phonemes, punctuations
— so with every checked field violating, the `phonemes` violation
precedes the `punctuations` violation, although `punctuations` is
declared first. -/
theorem claim_C6_check_invocation_order :
    allEmptyChars.check_values =
      [mkMissing ["pad"], mkMissing ["eos"], mkMissing ["bos"],
       mkMissing ["characters"], mkMissing ["phonemes"],
       mkMissing ["punctuations"]] ∧
    List.indexOf (mkMissing ["phonemes"]) allEmptyChars.check_values <
      List.indexOf (mkMissing ["punctuations"]) allEmptyChars.check_values :=
  ⟨by decide, by decide⟩

/-- C9: `CharactersConfig.check_values` constrains exactly the six
string fields pad, eos, bos, characters, phonemes and punctuations:
its result never depends on the `unique` field (any value of `unique`
is accepted), and every violation it emits targets one of the six
checked fields.  Unlike `GSTConfig.check_values`, its definition
contains no base-record check. -/
theorem claim_C9_characters_checks_exactly_six :
    (∀ (ch : CharactersConfig) (b : Bool),
      CharactersConfig.check_values { ch with unique := b } =
        CharactersConfig.check_values ch) ∧
    (∀ (ch : CharactersConfig) (w : Violation), w ∈ ch.check_values →
      w.field_path ∈ [["pad"], ["eos"], ["bos"], ["characters"],
        ["phonemes"], ["punctuations"]]) := by
  constructor
  · intro ch b; rfl
  · intro ch w hw
    simp only [CharactersConfig.check_values, List.mem_append] at hw
    rcases hw with ((((h | h) | h) | h) | h) | h
    · rw [check_argument_path "pad" _ _ _ _ w h]; simp
    · rw [check_argument_path "eos" _ _ _ _ w h]; simp
    · rw [check_argument_path "bos" _ _ _ _ w h]; simp
    · rw [check_argument_path "characters" _ _ _ _ w h]; simp
    · rw [check_argument_path "phonemes" _ _ _ _ w h]; simp
    · rw [check_argument_path "punctuations" _ _ _ _ w h]; simp

theorem claim_C9_witness :
    mkMissing ["pad"] ∈ allEmptyChars.check_values ∧
    (mkMissing ["pad"]).field_path ∈ [["pad"], ["eos"], ["bos"],
      ["characters"], ["phonemes"], ["punctuations"]] :=
  ⟨by decide,
    claim_C9_characters_checks_exactly_six.2 allEmptyChars
      (mkMissing ["pad"]) (by decide)⟩

/-- C10: in the `BaseTTSConfig` schema, `max_seq_len` is declared with
kind int yet its default value as instantiated is the float `inf` —
which is not an integer value — while `min_seq_len` defaults to `1`;
and no check ever constrains either field (their checks are empty on
every value, at every fuel). -/
theorem claim_C10_seq_len_fields :
    FieldSpec.primKind max_seq_lenField = some .kInt ∧
    max_seq_lenField ∈ baseTTSFields ∧
    min_seq_lenField ∈ baseTTSFields ∧
    lookupV "max_seq_len" (instFieldsF 10 baseTTSFields) = .vInf ∧
    (∀ n : Int, Value.vInf ≠ .vInt n) ∧
    lookupV "min_seq_len" (instFieldsF 10 baseTTSFields) = .vInt 1 ∧
    (∀ (fuel : Nat) (v : Value), checkF fuel max_seq_lenField v = []) ∧
    (∀ (fuel : Nat) (v : Value), checkF fuel min_seq_lenField v = []) := by
  refine ⟨rfl, by simp [baseTTSFields], by simp [baseTTSFields], by rfl,
    ?_, by rfl, ?_, ?_⟩
  · intro n h
    cases h
  · intro fuel v
    match fuel with
    | 0 => rfl
    | fuel + 1 =>
      cases v <;>
        simp [max_seq_lenField, checkF, checkPrim, PrimDefault.isMissing]
  · intro fuel v
    match fuel with
    | 0 => rfl
    | fuel + 1 =>
      cases v <;>
        simp [min_seq_lenField, checkF, checkPrim, PrimDefault.isMissing]

theorem claim_C10_witness :
    checkF 10 max_seq_lenField Value.vInf = [] ∧
    checkF 10 min_seq_lenField (Value.vInt 1) = [] ∧
    Value.vInf ≠ Value.vInt 7 :=
  ⟨claim_C10_seq_len_fields.2.2.2.2.2.2.1 10 .vInf,
    claim_C10_seq_len_fields.2.2.2.2.2.2.2 10 (.vInt 1),
    claim_C10_seq_len_fields.2.2.2.2.1 7⟩
